import Mathlib

/-!
Verification of the Yamale validator core (src/yamale/validators/validators.py
and src/yamale/yamale.py) against its design specification.

The embedding models Python values as an inductive `Value`, each validator's
`_is_valid` as a Lean function on `Value`, and stateful validators
(`Include`, `FileLine`) with explicit state passing.  Parts of the pipeline
that live outside the two source files (the schema tree-walker that combines
child-validator verdicts, the `Result` type) are modelled from the spec and
are marked as such in their doc comments.
-/

/-- Python values as delivered by the YAML front end: null, booleans,
integers, strings, sequences and mappings. -/
inductive Value where
  | vnone
  | vbool (b : Bool)
  | vint (n : Int)
  | vstr (s : String)
  | vlist (xs : List Value)
  | vmap (kvs : List (String × Value))

mutual

/-- Structural equality on `Value`, mirroring Python `==` on the modelled
values (cross-type numeric coercions such as `True == 1` are not modelled;
no claim depends on them). -/
def veq : Value → Value → Bool
  | Value.vnone, Value.vnone => true
  | Value.vbool a, Value.vbool b => a == b
  | Value.vint a, Value.vint b => a == b
  | Value.vstr a, Value.vstr b => a == b
  | Value.vlist a, Value.vlist b => veqList a b
  | Value.vmap a, Value.vmap b => veqMap a b
  | _, _ => false

def veqList : List Value → List Value → Bool
  | [], [] => true
  | x :: xs, y :: ys => veq x y && veqList xs ys
  | _, _ => false

def veqMap : List (String × Value) → List (String × Value) → Bool
  | [], [] => true
  | (k1, v1) :: xs, (k2, v2) :: ys => k1 == k2 && veq v1 v2 && veqMap xs ys
  | _, _ => false

end

/-- `value is None` in Python. -/
def Value.isNone : Value → Bool
  | Value.vnone => true
  | _ => false

/-- `util.isstr(value)`. -/
def Value.isStr : Value → Bool
  | Value.vstr _ => true
  | _ => false

/-- The character list of a string value (irrelevant default otherwise). -/
def Value.strChars : Value → List Char
  | Value.vstr s => s.data
  | _ => []

/-- A child validator as stored in a combinator's `validators` list: either
an arbitrary already-constructed validator, abstracted by its acceptance
predicate, or the `Enum` validator (which construction introduces). -/
inductive ChildV where
  | base (f : Value → Bool)
  | enum (lits : List Value)

/-- A child validator's own check: `Enum._is_valid` is membership of the
literal tuple (`value in self.enums`); an abstract validator applies its
predicate. -/
def ChildV.accepts : ChildV → Value → Bool
  | ChildV.base f, v => f v
  | ChildV.enum lits, v => lits.any (fun l => veq l v)

/-- One positional constructor argument, as classified by
`isinstance(val, Validator)` in the combinator constructors. -/
inductive Arg where
  | validator (c : ChildV)
  | literal (x : Value)

/-- Project the child validator out of an argument, when it is one. -/
def argAsValidator : Arg → Option ChildV
  | Arg.validator c => Option.some c
  | Arg.literal _ => Option.none

/-- Project the bare literal out of an argument, when it is one. -/
def argAsLiteral : Arg → Option Value
  | Arg.validator _ => Option.none
  | Arg.literal x => Option.some x

/-- The partition loop of `Any.__init__`: walk the positional arguments in
order, appending validators to `self.validators` and everything else to
`self.literals`. -/
def anyInitSplit (args : List Arg) : List ChildV × List Value :=
  args.foldl
    (fun acc a =>
      match a with
      | Arg.validator c => (acc.1 ++ [c], acc.2)
      | Arg.literal x => (acc.1, acc.2 ++ [x]))
    ([], [])

/-- `Any.__init__`: after the partition loop, a non-empty literal list is
folded into one `Enum(*literals)` appended to `self.validators`. -/
def anyInitValidators (args : List Arg) : List ChildV :=
  let p := anyInitSplit args
  if p.2.isEmpty then p.1 else p.1 ++ [ChildV.enum p.2]

/-- `NotAny.__init__`: `self.validators = Any(*args, **kwargs).validators`. -/
def notAnyInitValidators (args : List Arg) : List ChildV :=
  anyInitValidators args

/-- `All.__init__`: `self.validators = Any(*args, **kwargs).validators`. -/
def allInitValidators (args : List Arg) : List ChildV :=
  anyInitValidators args

/-- `Any._is_valid` in the source: unconditionally `True` (the combining
logic lives in the external schema driver). -/
def Any_is_valid (_value : Value) : Bool := true

/-- `NotAny._is_valid` in the source: unconditionally `True`. -/
def NotAny_is_valid (_value : Value) : Bool := true

/-- `All._is_valid` in the source: unconditionally `True`. -/
def All_is_valid (_value : Value) : Bool := true

/-- Modelled from the spec: the external schema tree-walker's dispatch for
the `any` tag (the driver is not under src/) — success iff at least one
child validator accepts the value (logical OR). -/
def anyCombine (children : List ChildV) (x : Value) : Bool :=
  children.any (fun c => c.accepts x)

/-- Modelled from the spec: the external schema tree-walker's dispatch for
the `all` tag — success iff every child validator accepts the value
(logical AND). -/
def allCombine (children : List ChildV) (x : Value) : Bool :=
  children.all (fun c => c.accepts x)

/-- Modelled from the spec: the external schema tree-walker's dispatch for
the `notany` tag — success iff no child validator accepts the value
(logical NOR). -/
def notAnyCombine (children : List ChildV) (x : Value) : Bool :=
  !(children.any (fun c => c.accepts x))

/-- The state of a constructed `Subset` validator: the filtered child
validators and the `allow_empty` keyword option. -/
structure SubsetV where
  children : List ChildV
  allow_empty_set : Bool

/-- The validator filter of `Subset.__init__`:
`[val for val in args if isinstance(val, Validator)]` — bare literals are
discarded, not folded into an `Enum`. -/
def subsetInitChildren (args : List Arg) : List ChildV :=
  args.filterMap
    (fun a =>
      match a with
      | Arg.validator c => some c
      | Arg.literal _ => none)

/-- `Subset.__init__`: store `bool(allow_empty)`, filter child validators
from the positional arguments and raise `ValueError` at construction time
when none remain. -/
def subsetInit (args : List Arg) (allow_empty : Bool) : Except String SubsetV :=
  let vs := subsetInitChildren args
  if vs.isEmpty then
    Except.error "\x27subset\x27 requires at least one validator!"
  else
    Except.ok ⟨vs, allow_empty⟩

/-- `Subset.is_optional` (a property returning `self._allow_empty_set`). -/
def SubsetV.is_optional (s : SubsetV) : Bool := s.allow_empty_set

/-- `Subset.can_be_none` (a property returning `self._allow_empty_set`). -/
def SubsetV.can_be_none (s : SubsetV) : Bool := s.allow_empty_set

/-- `Subset._is_valid`: `self.can_be_none or value is not None`. -/
def SubsetV.is_valid (s : SubsetV) (value : Value) : Bool :=
  s.can_be_none || !value.isNone

/-- Modelled from the spec: the external tree-walker's subset combination
(the schema driver is not under src/) — the value must be a non-empty
collection each of whose elements is accepted by at least one child
validator, unless `allow_empty` permits an empty collection. -/
def subsetValidate (children : List ChildV) (allow_empty : Bool)
    (xs : List Value) : Bool :=
  if xs.isEmpty then allow_empty
  else xs.all (fun x => children.any (fun c => c.accepts x))

/-- Modelled from the spec: the external tree-walker consults `is_optional`
and `can_be_none` to decide whether a missing key or a null value
short-circuits the check as acceptable without invoking the validator's
own check. -/
def walkerGate (isOpt canNone : Bool) (slot : Option Value)
    (check : Value → Bool) : Bool :=
  match slot with
  | Option.none => isOpt
  | Option.some Value.vnone => canNone || check Value.vnone
  | Option.some v => check v

/-- `Include._is_valid`.  The process-wide include registry
(`yamale.schema.includes`) and the referenced sub-schema's `validate`
method live outside src/; the registry is modelled as a partial map from
include names to the sub-schema's error-producing validation function, and
a missing key raises `KeyError`, caught by the `except` branch.  The method
resets `self.errors`, consults the registry only when the value is a
string, and returns `not self.errors`; the result pairs the stored error
list with the returned boolean. -/
def Include_is_valid (registry : String → Option (Value → List String))
    (include_name : String) (value : Value) : List String × Bool :=
  let errors : List String :=
    match value with
    | Value.vstr s =>
      match registry include_name with
      | Option.some subValidate => subValidate (Value.vstr s)
      | Option.none => ["\x27" ++ include_name ++ "\x27 is not included"]
    | _ => []
  (errors, errors.isEmpty)

/-- `Include.fail`: `"'%s' is not %s because %s"` with the accumulated
errors joined by `"; "`. -/
def Include_fail (valueRepr include_name : String)
    (errors : List String) : String :=
  "\x27" ++ valueRepr ++ "\x27 is not " ++ include_name ++ " because " ++
    String.intercalate "; " errors

/-- The mutable state of a `FileLine` validator: `self.error`, set to the
empty string by `__init__` and assigned (never reset) by `_is_valid`. -/
structure FileLineState where
  error : String

/-- `FileLine.__init__`: `self.error = ''`. -/
def FileLine_init : FileLineState := ⟨""⟩

/-- `FileLine._is_valid`.  The filesystem is modelled as a predicate
`isFile : String → Bool` capturing `Path(fn).is_file()` at the moment of
the call.  Faithful to the source, `self.error` is assigned inside the
loop for each missing file but is never reset at the start of the call;
the method returns `not self.error`. -/
def FileLine_is_valid (isFile : String → Bool) (filenames : List String)
    (st : FileLineState) : Bool × FileLineState :=
  let st2 := filenames.foldl
    (fun acc fn =>
      if isFile fn then acc
      else ⟨"file \x27" ++ fn ++ "\x27 does not exists"⟩)
    st
  (st2.error == "", st2)

/-- The per-document outcome produced by the external schema driver
(`schema.validate`, not under src/): the batch runner in src/yamale.py
consumes it only through `result.isValid()`, so it is modelled by that
boolean. -/
structure Result where
  isValid : Bool

/-- `validate` from src/yamale.py: run every data document against the
schema, collecting one `Result` per document and conjoining validity; when
`_raise_error` is set and some document is invalid, raise `YamaleError`
carrying all results (`Except.error`); otherwise return the results. -/
def validate {α : Type} (schemaValidate : α → Result) (data : List α)
    (raise_error : Bool) : Except (List Result) (List Result) :=
  let p := data.foldl
    (fun (acc : List Result × Bool) d =>
      let result := schemaValidate d
      (acc.1 ++ [result], acc.2 && result.isValid))
    ([], true)
  if raise_error && !p.2 then Except.error p.1 else Except.ok p.1

/-- A compiled regular expression (`re.compile`), restricted to the
combinators the claims exercise. -/
inductive RE where
  | emp
  | eps
  | chr (c : Char)
  | alt (a b : RE)
  | cat (a b : RE)
  | star (a : RE)

/-- Whether the empty string is in the pattern's language. -/
def RE.nullable : RE → Bool
  | RE.emp => false
  | RE.eps => true
  | RE.chr _ => false
  | RE.alt a b => a.nullable || b.nullable
  | RE.cat a b => a.nullable && b.nullable
  | RE.star _ => true

/-- Brzozowski derivative of a pattern by one character. -/
def RE.deriv : RE → Char → RE
  | RE.emp, _ => RE.emp
  | RE.eps, _ => RE.emp
  | RE.chr c, d => if c = d then RE.eps else RE.emp
  | RE.alt a b, d => RE.alt (a.deriv d) (b.deriv d)
  | RE.cat a b, d =>
    if a.nullable then RE.alt (RE.cat (a.deriv d) b) (b.deriv d)
    else RE.cat (a.deriv d) b
  | RE.star a, d => RE.cat (a.deriv d) (RE.star a)

/-- `r.fullmatch(s)`: the whole string is in the pattern's language. -/
def reFull (r : RE) : List Char → Bool
  | [] => r.nullable
  | c :: cs => reFull (r.deriv c) cs

/-- `r.match(s)`: the match is anchored at the start of the string but some
prefix suffices — trailing characters are allowed. -/
def reMatch (r : RE) : List Char → Bool
  | [] => r.nullable
  | c :: cs => r.nullable || reMatch (r.deriv c) cs

/-- `Regex._is_valid`:
`util.isstr(value) and any(r.match(value) for r in self.regexes)`. -/
def Regex_is_valid (regexes : List RE) (value : Value) : Bool :=
  value.isStr && regexes.any (fun r => reMatch r value.strChars)

/-- `[0-9a-fA-F]`. -/
def isHexDigit (c : Char) : Bool :=
  (('0' ≤ c) && (c ≤ '9')) || (('a' ≤ c) && (c ≤ 'f')) ||
    (('A' ≤ c) && (c ≤ 'F'))

/-- Consume exactly `n` hex digits (`[0-9a-fA-F]{n}`), returning the rest. -/
def takeHex : Nat → List Char → Option (List Char)
  | 0, s => Option.some s
  | _ + 1, [] => Option.none
  | n + 1, c :: cs => if isHexDigit c then takeHex n cs else Option.none

/-- Consume the captured separator (`\1`): nothing when the capture of
`([-:]?)` was empty, otherwise exactly the captured character. -/
def takeSep : Option Char → List Char → Option (List Char)
  | Option.none, s => Option.some s
  | Option.some _, [] => Option.none
  | Option.some d, c :: cs => if c = d then Option.some cs else Option.none

/-- Consume `(\1[0-9a-fA-F]{n}){k}`: `k` repetitions of the captured
separator followed by `n` hex digits. -/
def takeGroups (n : Nat) (sep : Option Char) : Nat → List Char → Option (List Char)
  | 0, s => Option.some s
  | k + 1, s =>
    match takeSep sep s with
    | Option.none => Option.none
    | Option.some s1 =>
      match takeHex n s1 with
      | Option.none => Option.none
      | Option.some s2 => takeGroups n sep k s2

/-- Python's `$` under `re.match` (no MULTILINE): matches at the end of the
string or just before a trailing newline. -/
def dollarEnd (s : List Char) : Bool :=
  match s with
  | [] => true
  | [c] => c = '\n'
  | _ => false

/-- One Mac pattern `[0-9a-fA-F]{n}([-:]?)[0-9a-fA-F]{n}(\1[0-9a-fA-F]{n}){k}$`
matched from the start of the string.  The optional capturing group
`([-:]?)` captures `-`, `:` or the empty string; backtracking over that
choice is the existential over the three captures. -/
def macPattern (n k : Nat) (s : List Char) : Bool :=
  [Option.some '-', Option.some ':', (Option.none : Option Char)].any
    (fun sep =>
      match takeHex n s with
      | Option.none => false
      | Option.some s1 =>
        match takeSep sep s1 with
        | Option.none => false
        | Option.some s2 =>
          match takeHex n s2 with
          | Option.none => false
          | Option.some s3 =>
            match takeGroups n sep k s3 with
            | Option.none => false
            | Option.some s4 => dollarEnd s4)

/-- `Mac`: a `Regex` subclass whose `__init__` replaces `self.regexes` with
the two patterns `"[0-9a-fA-F]{2}([-:]?)[0-9a-fA-F]{2}(\1[0-9a-fA-F]{2}){4}$"`
and `"[0-9a-fA-F]{4}([-:]?)[0-9a-fA-F]{4}(\1[0-9a-fA-F]{4})$"`; the
inherited `Regex._is_valid` then requires a string for which some pattern
matches from the start.  Because both patterns use a backreference, they
are embedded as the dedicated matcher `macPattern` rather than as `RE`
terms. -/
def Mac_is_valid (value : Value) : Bool :=
  value.isStr &&
    (macPattern 2 4 value.strChars || macPattern 4 1 value.strChars)

/-! ## Helper lemmas -/

theorem anyInitSplit_go (args : List Arg) (acc1 : List ChildV)
    (acc2 : List Value) :
    args.foldl
      (fun acc a =>
        match a with
        | Arg.validator c => (acc.1 ++ [c], acc.2)
        | Arg.literal x => (acc.1, acc.2 ++ [x]))
      (acc1, acc2)
    = (acc1 ++ args.filterMap argAsValidator,
        acc2 ++ args.filterMap argAsLiteral) := by
  induction args generalizing acc1 acc2 with
  | nil => simp
  | cons a rest ih =>
    cases a with
    | validator c => simp [List.filterMap_cons, argAsValidator, argAsLiteral, ih]
    | literal x => simp [List.filterMap_cons, argAsValidator, argAsLiteral, ih]

theorem anyInitSplit_eq (args : List Arg) :
    anyInitSplit args
      = (args.filterMap argAsValidator, args.filterMap argAsLiteral) := by
  simpa [anyInitSplit] using anyInitSplit_go args [] []

theorem subsetInitChildren_eq (args : List Arg) :
    subsetInitChildren args = args.filterMap argAsValidator := by
  induction args with
  | nil => rfl
  | cons a rest ih =>
    cases a <;>
      simp [subsetInitChildren, List.filterMap_cons, argAsValidator] at ih ⊢ <;>
      exact ih

theorem validate_go {α : Type} (f : α → Result) (data : List α)
    (acc : List Result) (b : Bool) :
    data.foldl
      (fun (acc : List Result × Bool) d =>
        let result := f d
        (acc.1 ++ [result], acc.2 && result.isValid))
      (acc, b)
    = (acc ++ data.map f, b && (data.map f).all Result.isValid) := by
  induction data generalizing acc b with
  | nil => simp
  | cons d rest ih => simp [ih, Bool.and_assoc]

theorem reMatch_iff (s : List Char) (r : RE) :
    reMatch r s = true
      ↔ ∃ p q : List Char, s = p ++ q ∧ reFull r p = true := by
  induction s generalizing r with
  | nil =>
    constructor
    · intro h
      exact ⟨[], [], rfl, h⟩
    · rintro ⟨p, q, hpq, hfull⟩
      rcases List.append_eq_nil.mp hpq.symm with ⟨hp, _⟩
      subst hp
      exact hfull
  | cons c cs ih =>
    constructor
    · intro h
      rcases Bool.or_eq_true_iff.mp h with hn | hm
      · exact ⟨[], c :: cs, rfl, hn⟩
      · rcases (ih (r.deriv c)).mp hm with ⟨p, q, hpq, hfull⟩
        exact ⟨c :: p, q, by simp [hpq], hfull⟩
    · rintro ⟨p, q, hpq, hfull⟩
      cases p with
      | nil =>
        exact Bool.or_eq_true_iff.mpr (Or.inl hfull)
      | cons c2 p2 =>
        obtain ⟨hc, hcs⟩ := List.cons.inj hpq
        subst hc
        refine Bool.or_eq_true_iff.mpr (Or.inr ?_)
        exact (ih (r.deriv c)).mpr ⟨p2, q, hcs, hfull⟩

theorem reMatch_trailing (s t : List Char) (r : RE)
    (h : reMatch r s = true) : reMatch r (s ++ t) = true := by
  rcases (reMatch_iff s r).mp h with ⟨p, q, hpq, hfull⟩
  exact (reMatch_iff (s ++ t) r).mpr ⟨p, q ++ t, by simp [hpq], hfull⟩

/-! ## Claim theorems -/

/-- Claim C1: for every value x, the `any` combination over the validators
constructed by `Any(A, B)` accepts x iff at least one of the child
validators A, B accepts x; the `all` combination accepts x iff every child
accepts x; and the `notany` combination accepts x iff no child accepts x —
exactly the complement of the `any` combination.  (The combining logic
lives in the external schema driver and is modelled from the spec.) -/
theorem Any_All_NotAny_combinator_semantics (A B : ChildV) (x : Value) :
    anyCombine (anyInitValidators [Arg.validator A, Arg.validator B]) x
      = (A.accepts x || B.accepts x)
  ∧ allCombine (allInitValidators [Arg.validator A, Arg.validator B]) x
      = (A.accepts x && B.accepts x)
  ∧ notAnyCombine (notAnyInitValidators [Arg.validator A, Arg.validator B]) x
      = (!(A.accepts x) && !(B.accepts x))
  ∧ notAnyCombine (notAnyInitValidators [Arg.validator A, Arg.validator B]) x
      = !(anyCombine (anyInitValidators [Arg.validator A, Arg.validator B]) x) := by
  refine ⟨?_, ?_, ?_, ?_⟩ <;>
    simp [anyCombine, allCombine, notAnyCombine, anyInitValidators,
      notAnyInitValidators, allInitValidators, anyInitSplit]

/-- Claim C8 counterexample: the claim asserts that all four combinators
fold bare literal arguments into one implicit enum validator appended to
the child-validator set, but `Subset.__init__` discards bare literals: on
the arguments `(Enum("v"), 1)` the `any`/`all`/`notany` construction yields
the child list `[Enum("v"), Enum(1)]` while the `subset` construction
yields `[Enum("v")]` with no implicit enum. -/
theorem Subset_construction_drops_literals :
    subsetInitChildren
        [Arg.validator (ChildV.enum [Value.vstr "v"]), Arg.literal (Value.vint 1)]
      = [ChildV.enum [Value.vstr "v"]]
  ∧ anyInitValidators
        [Arg.validator (ChildV.enum [Value.vstr "v"]), Arg.literal (Value.vint 1)]
      = [ChildV.enum [Value.vstr "v"], ChildV.enum [Value.vint 1]]
  ∧ subsetInitChildren
        [Arg.validator (ChildV.enum [Value.vstr "v"]), Arg.literal (Value.vint 1)]
      ≠ anyInitValidators
        [Arg.validator (ChildV.enum [Value.vstr "v"]), Arg.literal (Value.vint 1)] := by
  refine ⟨rfl, rfl, fun h => ?_⟩
  have h2 := congrArg List.length h
  simp [subsetInitChildren, anyInitValidators, anyInitSplit] at h2

/-- Claim C8 (amended): `any`, `all` and `notany` partition the positional
arguments into child validators and bare literal values and fold a
non-empty literal list into one implicit enum validator appended to the
child-validator set; `subset` keeps only the child-validator arguments and
discards bare literals without folding them into an enum. -/
theorem combinator_construction (args : List Arg) :
    anyInitValidators args
      = (if (args.filterMap argAsLiteral).isEmpty
          then args.filterMap argAsValidator
          else args.filterMap argAsValidator
            ++ [ChildV.enum (args.filterMap argAsLiteral)])
  ∧ allInitValidators args = anyInitValidators args
  ∧ notAnyInitValidators args = anyInitValidators args
  ∧ subsetInitChildren args = args.filterMap argAsValidator := by
  refine ⟨?_, rfl, rfl, subsetInitChildren_eq args⟩
  unfold anyInitValidators
  rw [anyInitSplit_eq]

/-- Claim C9: constructing a `Subset` whose positional arguments contain no
child validators fails at construction (schema-compile) time with a
`ValueError`, and the failure is never deferred: a successfully constructed
`Subset` always holds at least one child validator. -/
theorem Subset_empty_construction_fails (args : List Arg) (allow_empty : Bool) :
    (subsetInit args allow_empty
        = Except.error "\x27subset\x27 requires at least one validator!"
      ↔ subsetInitChildren args = [])
  ∧ ∀ s : SubsetV, subsetInit args allow_empty = Except.ok s →
      s.children ≠ [] := by
  constructor
  · unfold subsetInit
    rcases h : subsetInitChildren args with _ | ⟨c, cs⟩ <;> simp
  · intro s hs
    unfold subsetInit at hs
    rcases h : subsetInitChildren args with _ | ⟨c, cs⟩ <;> rw [h] at hs <;>
      simp at hs
    rw [← hs]
    simp

/-- Witness for claim C9 at a concrete input: constructing a subset from
one enum child succeeds and the resulting child list is non-empty, while
the literal-only argument list is rejected. -/
theorem Subset_empty_construction_fails_witness :
    (⟨[ChildV.enum [Value.vint 1]], false⟩ : SubsetV).children ≠ [] :=
  (Subset_empty_construction_fails [Arg.validator (ChildV.enum [Value.vint 1])]
      false).2 ⟨[ChildV.enum [Value.vint 1]], false⟩ rfl

/-- Claim C2: for every `Subset` validator successfully constructed with at
least one child validator, the subset check (modelled from the spec, since
the tree-walker is outside src/) fails on an empty collection when
`allow_empty` is false and succeeds when it is true; a non-empty collection
is accepted iff each of its elements is accepted by at least one child
validator. -/
theorem Subset_emptiness_policy (args : List Arg) (allow_empty : Bool)
    (s : SubsetV) (h : subsetInit args allow_empty = Except.ok s) :
    s.allow_empty_set = allow_empty
  ∧ subsetValidate s.children s.allow_empty_set [] = allow_empty
  ∧ ∀ xs : List Value, xs ≠ [] →
      (subsetValidate s.children s.allow_empty_set xs = true
        ↔ ∀ x ∈ xs, ∃ c ∈ s.children, c.accepts x = true) := by
  unfold subsetInit at h
  rcases h2 : subsetInitChildren args with _ | ⟨c, cs⟩ <;> rw [h2] at h <;>
    simp at h
  have he : s.allow_empty_set = allow_empty := by rw [← h]
  refine ⟨he, by simp [subsetValidate, he], ?_⟩
  intro xs hxs
  simp [subsetValidate, List.isEmpty_iff, hxs, List.all_eq_true,
    List.any_eq_true]

/-- Witness for claim C2 at a concrete input: a subset over one enum child
rejects the empty collection with `allow_empty=False`, accepts it with
`allow_empty=True`, and accepts a singleton collection whose element the
child accepts. -/
theorem Subset_emptiness_policy_witness :
    subsetValidate [ChildV.enum [Value.vint 1]] false [] = false
  ∧ subsetValidate [ChildV.enum [Value.vint 1]] true [] = true
  ∧ subsetValidate [ChildV.enum [Value.vint 1]] false [Value.vint 1] = true := by
  refine ⟨(Subset_emptiness_policy [Arg.validator (ChildV.enum [Value.vint 1])]
      false ⟨[ChildV.enum [Value.vint 1]], false⟩ rfl).2.1,
    (Subset_emptiness_policy [Arg.validator (ChildV.enum [Value.vint 1])]
      true ⟨[ChildV.enum [Value.vint 1]], true⟩ rfl).2.1, ?_⟩
  refine ((Subset_emptiness_policy [Arg.validator (ChildV.enum [Value.vint 1])]
      false ⟨[ChildV.enum [Value.vint 1]], false⟩ rfl).2.2
      [Value.vint 1] (by simp)).mpr ?_
  intro x hx
  refine ⟨ChildV.enum [Value.vint 1], by simp, ?_⟩
  rcases List.mem_singleton.mp hx with rfl
  rfl

/-- Claim C10: for every `Subset` validator, `is_optional` and
`can_be_none` both equal the stored `allow_empty` option; with
`allow_empty=True` the tree-walker gate (modelled from the spec) accepts a
missing key and a null value without consulting the subset check, and with
`allow_empty=False` the validator's own check rejects `None`. -/
theorem Subset_optional_flags (s : SubsetV) :
    s.is_optional = s.allow_empty_set
  ∧ s.can_be_none = s.allow_empty_set
  ∧ (s.allow_empty_set = true →
      ∀ check : Value → Bool,
        walkerGate s.is_optional s.can_be_none Option.none check = true
      ∧ walkerGate s.is_optional s.can_be_none (Option.some Value.vnone) check
          = true)
  ∧ (s.allow_empty_set = false → s.is_valid Value.vnone = false) := by
  refine ⟨rfl, rfl, fun he check => ?_, fun he => ?_⟩
  · constructor <;>
      simp [walkerGate, SubsetV.is_optional, SubsetV.can_be_none, he]
  · simp [SubsetV.is_valid, SubsetV.can_be_none, Value.isNone, he]

/-- Witness for claim C10 at a concrete input: with `allow_empty=True` the
gate accepts a null value even under a child check that rejects everything,
and with `allow_empty=False` the subset check rejects `None`. -/
theorem Subset_optional_flags_witness :
    walkerGate (⟨[], true⟩ : SubsetV).is_optional
        (⟨[], true⟩ : SubsetV).can_be_none (Option.some Value.vnone)
        (fun _ => false) = true
  ∧ (⟨[], false⟩ : SubsetV).is_valid Value.vnone = false :=
  ⟨((Subset_optional_flags ⟨[], true⟩).2.2.1 rfl (fun _ => false)).2,
    (Subset_optional_flags ⟨[], false⟩).2.2.2 rfl⟩

/-- Claim C3 counterexample: the claim asserts that for every value v,
including the mapping `{}`, `Include("foo")` with `"foo"` absent from the
registry fails with a "not included" diagnostic; but `Include._is_valid`
consults the registry only for string values, so the empty mapping is
accepted with an empty error list and no diagnostic is produced. -/
theorem Include_accepts_nonstring :
    Include_is_valid (fun _ => Option.none) "foo" (Value.vmap [])
      = ([], true) := rfl

/-- Claim C3 (amended): for every string value, validating with
`Include("foo")` while `"foo"` is absent from the include registry fails,
and the stored diagnostic is exactly the "not included" message naming
`"foo"`; every non-string value is accepted by `Include._is_valid` with an
empty error list, the registry never being consulted. -/
theorem Include_missing_reference
    (registry : String → Option (Value → List String))
    (include_name : String) (s : String)
    (h : registry include_name = Option.none) :
    Include_is_valid registry include_name (Value.vstr s)
      = (["\x27" ++ include_name ++ "\x27 is not included"], false)
  ∧ ∀ v : Value, v.isStr = false →
      Include_is_valid registry include_name v = ([], true) := by
  constructor
  · simp [Include_is_valid, h]
  · intro v hv
    cases v <;> first
      | rfl
      | simp [Value.isStr] at hv

/-- Witness for claim C3 at a concrete input: with an empty registry,
`Include("foo")` rejects the string `"x"` with the "not included" message
naming foo, and accepts the empty mapping. -/
theorem Include_missing_reference_witness :
    Include_is_valid (fun _ => Option.none) "foo" (Value.vstr "x")
      = (["\x27foo\x27 is not included"], false)
  ∧ Include_is_valid (fun _ => Option.none) "foo" (Value.vmap []) = ([], true) :=
  ⟨(Include_missing_reference (fun _ => Option.none) "foo" "x" rfl).1,
    (Include_missing_reference (fun _ => Option.none) "foo" "x" rfl).2
      (Value.vmap []) rfl⟩

/-- Claim C4: for every schema (abstracted by its per-document validation
function) and every sequence of data documents, `validate` produces one
`Result` per document in order (`data.map schemaValidate`); when
error-raising is not suppressed it raises an aggregate error carrying all
per-document results iff at least one document is invalid, and returns the
results normally otherwise; the aggregate outcome is valid iff every
document's `Result` is valid. -/
theorem validate_batch_contract {α : Type} (schemaValidate : α → Result)
    (data : List α) (raise_error : Bool) :
    validate schemaValidate data raise_error
      = (if raise_error && !((data.map schemaValidate).all Result.isValid)
          then Except.error (data.map schemaValidate)
          else Except.ok (data.map schemaValidate)) := by
  unfold validate
  rw [validate_go]
  simp

/-- Claim C5 (refuting the file_line clause): `FileLine._is_valid` never
resets `self.error`, so its result is not determined solely by which files
exist at the moment of the call.  With one constructor path, a fresh
validator accepts when the file exists; but after one call during which
the file was missing, a second call accepts nothing even though the file
now exists — the failure accumulates across calls. -/
theorem FileLine_error_accumulates :
    (FileLine_is_valid (fun _ => true) ["data.txt"] FileLine_init).1 = true
  ∧ (FileLine_is_valid (fun _ => false) ["data.txt"] FileLine_init).2.error
      = "file \x27data.txt\x27 does not exists"
  ∧ (FileLine_is_valid (fun _ => true) ["data.txt"]
      (FileLine_is_valid (fun _ => false) ["data.txt"] FileLine_init).2).1
      = false := by
  refine ⟨rfl, rfl, ?_⟩
  decide

/-- Claim C6: `Regex._is_valid` accepts a value iff it is a string and at
least one of the compiled patterns matches anchored at the start — i.e.
some prefix of the string is in the pattern's full-match language, so
trailing characters after the matched prefix never cause failure, and
multiple patterns combine with OR; moreover acceptance of a string is
preserved by appending any suffix. -/
theorem Regex_match_semantics (regexes : List RE) (value : Value) :
    (Regex_is_valid regexes value = true
      ↔ ∃ s : String, value = Value.vstr s
          ∧ ∃ r ∈ regexes, ∃ p q : List Char,
              s.data = p ++ q ∧ reFull r p = true)
  ∧ ∀ s t : String, Regex_is_valid regexes (Value.vstr s) = true →
      Regex_is_valid regexes (Value.vstr (s ++ t)) = true := by
  constructor
  · cases value with
    | vstr s =>
      simp [Regex_is_valid, Value.isStr, Value.strChars, List.any_eq_true,
        reMatch_iff]
    | vnone => simp [Regex_is_valid, Value.isStr]
    | vbool b => simp [Regex_is_valid, Value.isStr]
    | vint n => simp [Regex_is_valid, Value.isStr]
    | vlist xs => simp [Regex_is_valid, Value.isStr]
    | vmap kvs => simp [Regex_is_valid, Value.isStr]
  · intro s t h
    simp [Regex_is_valid, Value.isStr, Value.strChars, List.any_eq_true]
      at h ⊢
    rcases h with ⟨r, hr, hm⟩
    exact ⟨r, hr, reMatch_trailing s.data t.data r hm⟩

/-- Witness for claim C6 at a concrete input: the pattern `v1` (anchored at
the start) accepts the string `"v1" ++ ".2.3"` because it accepts its
prefix `"v1"` — trailing characters do not cause failure. -/
theorem Regex_match_semantics_witness :
    Regex_is_valid [RE.cat (RE.chr 'v') (RE.chr '1')]
      (Value.vstr ("v1" ++ ".2.3")) = true :=
  (Regex_match_semantics [RE.cat (RE.chr 'v') (RE.chr '1')]
      (Value.vstr "v1")).2 "v1" ".2.3" (by decide)

/-- Claim C7 counterexample: the claim asserts the mac validator accepts
the dotted grouping `"aabb.ccdd.eeff"`, but the compiled patterns only
admit `-`, `:` or the empty string as the (back-referenced) separator, so
the dotted form is rejected. -/
theorem Mac_rejects_dotted :
    Mac_is_valid (Value.vstr "aabb.ccdd.eeff") = false := by decide

/-- Claim C7 (amended): the mac validator accepts the colon- or
hyphen-delimited six-group form and the four-hex-digit three-group form
with a consistent `-`/`:`/empty separator (the dotted four-hex-digit form
is rejected, since `.` is not an admissible separator), and rejects
strings of malformed length. -/
theorem Mac_acceptance :
    Mac_is_valid (Value.vstr "aa:bb:cc:dd:ee:ff") = true
  ∧ Mac_is_valid (Value.vstr "aa-bb-cc-dd-ee-ff") = true
  ∧ Mac_is_valid (Value.vstr "aabb:ccdd:eeff") = true
  ∧ Mac_is_valid (Value.vstr "aabbccddeeff") = true
  ∧ Mac_is_valid (Value.vstr "aabb.ccdd.eeff") = false
  ∧ Mac_is_valid (Value.vstr "aa:bb:cc:dd:ee") = false
  ∧ Mac_is_valid (Value.vstr "aa:bb:cc:dd:ee:ff:00") = false := by decide
